import Mathlib

/-!
Verification of the huji-chat HTTP/1.1 server core against its specification.
The C++ sources (Parsers.cpp, Server.cpp, Common.cpp) are shallowly embedded:
std::string is modelled as List Char (byte strings), std::map as an
association list whose insertion overwrites an existing key, socket reads as
an explicit list of delivered chunks, and C++ exceptions as Except Unit.
-/

/-- Model of std::tolower (C locale, applied to unsigned char): only 'A'..'Z'
are mapped down; every other byte is unchanged. -/
def toLowerM (c : Char) : Char :=
  if 'A' ≤ c ∧ c ≤ 'Z' then Char.ofNat (c.toNat + 32) else c

/-- Model of ci_char_compare in Parsers.cpp (anonymous namespace). -/
def ci_char_compare (a b : Char) : Bool :=
  toLowerM a == toLowerM b

/-- Model of std::string::find(substring): index of the first occurrence,
none when absent; the empty needle matches at 0. -/
def findSub : List Char → List Char → Option Nat
  | hay, pat =>
    if pat.isPrefixOf hay then some 0
    else
      match hay with
      | [] => none
      | _ :: t => (findSub t pat).map (· + 1)

/-- Substring containment, as used by std::string::find(...) != npos. -/
def containsSub (hay pat : List Char) : Bool :=
  (findSub hay pat).isSome

/-- Case-insensitive prefix match, pattern against the head of the haystack,
comparing with ci_char_compare. -/
def ciPrefixAt : List Char → List Char → Bool
  | [], _ => true
  | _ :: _, [] => false
  | p :: ps, h :: hs => ci_char_compare h p && ciPrefixAt ps hs

/-- Model of std::search with ci_char_compare: index of the first
case-insensitive occurrence of pat in hay, none when absent. -/
def searchCI : List Char → List Char → Option Nat
  | hay, pat =>
    if ciPrefixAt pat hay then some 0
    else
      match hay with
      | [] => none
      | _ :: t => (searchCI t pat).map (· + 1)

/-- Split a byte string at every occurrence of the separator character. -/
def splitOnChar (sep : Char) : List Char → List (List Char)
  | [] => [[]]
  | x :: xs =>
    match splitOnChar sep xs with
    | [] => [[]]
    | y :: ys => if x == sep then [] :: y :: ys else (x :: y) :: ys

/-- Model of the `while (std::getline(ss, segment, sep))` loop: the segments
produced before getline fails.  getline fails exactly when the stream is
exhausted without extracting any character, so an empty input yields no
segment and a trailing separator does not yield a final empty segment. -/
def getlineSegs (s : List Char) : List (List Char) :=
  if s.isEmpty then []
  else if s.getLast? = some '&' then (splitOnChar '&' s).dropLast
  else splitOnChar '&' s

/-- Model of std::map<std::string,std::string>::operator[] followed by
assignment: overwrite the value when the key is present, insert otherwise.
(The C++ map iterates in key order; this list keeps insertion order, which
only affects iteration order, never lookups.) -/
def mapInsert : List (List Char × List Char) → List Char → List Char →
    List (List Char × List Char)
  | [], k, v => [(k, v)]
  | (k0, v0) :: rest, k, v =>
    if k0 == k then (k0, v) :: rest else (k0, v0) :: mapInsert rest k v

/-- Association-list lookup (the map's find). -/
def mapFind? : List (List Char × List Char) → List Char → Option (List Char)
  | [], _ => none
  | (k0, v0) :: rest, k => if k0 == k then some v0 else mapFind? rest k

/-- Bytes accepted by C isspace in the C locale: space (32), tab (9),
newline (10), vertical tab (11), form feed (12), carriage return (13). -/
def isSpaceByte (c : Char) : Bool :=
  c.toNat = 32 || c.toNat = 9 || c.toNat = 10 || c.toNat = 11 ||
  c.toNat = 12 || c.toNat = 13

/-- Decimal digit test ('0'..'9'). -/
def isDigitB (c : Char) : Bool := 48 ≤ c.toNat && c.toNat ≤ 57

/-- Hexadecimal digit test (C isxdigit): '0'..'9', 'a'..'f', 'A'..'F'. -/
def isHexDigitB (c : Char) : Bool :=
  (48 ≤ c.toNat && c.toNat ≤ 57) || (97 ≤ c.toNat && c.toNat ≤ 102) ||
  (65 ≤ c.toNat && c.toNat ≤ 70)

/-- Value of a hexadecimal digit. -/
def hexVal (c : Char) : Nat :=
  if 48 ≤ c.toNat ∧ c.toNat ≤ 57 then c.toNat - 48
  else if 97 ≤ c.toNat ∧ c.toNat ≤ 102 then c.toNat - 87
  else if 65 ≤ c.toNat ∧ c.toNat ≤ 70 then c.toNat - 55
  else 0

/-- Decimal digit character. -/
def decDigit (d : Nat) : Char := Char.ofNat (48 + d)

/-- Fuel-driven decimal printer (the fuel n+1 always suffices since the
argument shrinks by a factor of ten each step). -/
def natDecimalAux : Nat → Nat → List Char → List Char
  | 0, _, acc => acc
  | fuel + 1, n, acc =>
    if n < 10 then decDigit n :: acc
    else natDecimalAux fuel (n / 10) (decDigit (n % 10) :: acc)

/-- Decimal representation of a Nat, as printed by operator<< on size_t. -/
def natDecimal (n : Nat) : List Char := natDecimalAux (n + 1) n []

/-- Decimal representation of an Int, as printed by operator<< on int. -/
def intRepr (i : Int) : List Char :=
  if i < 0 then '-' :: natDecimal i.natAbs else natDecimal i.toNat

/-- strtoul base-16 subject sequence after whitespace and sign: an optional
0x/0X, then hex digits; "0x" with no following hex digit consumes just the
"0" (value 0); no digit at all is invalid_argument; a value above
ULONG_MAX (2^64-1 on the target) is out_of_range.  Both exceptions are
collapsed into Except.error. -/
def hexPlain (t : List Char) : Except Unit Nat :=
  match t.takeWhile isHexDigitB with
  | [] => .error ()
  | ds =>
    if (ds.foldl (fun a c => a * 16 + hexVal c) 0) < 2 ^ 64 then
      .ok (ds.foldl (fun a c => a * 16 + hexVal c) 0)
    else .error ()

/-- Continuation of hexPlain handling the optional 0x/0X. -/
def hexTail (t : List Char) : Except Unit Nat :=
  match t with
  | '0' :: x :: rest =>
    if x == 'x' || x == 'X' then
      match rest.takeWhile isHexDigitB with
      | [] => .ok 0
      | ds =>
        if (ds.foldl (fun a c => a * 16 + hexVal c) 0) < 2 ^ 64 then
          .ok (ds.foldl (fun a c => a * 16 + hexVal c) 0)
        else .error ()
    else hexPlain ('0' :: x :: rest)
  | t => hexPlain t

/-- Model of std::stoul(s, nullptr, 16) on a 64-bit unsigned long: skip
whitespace, accept an optional sign ('-' wraps modulo 2^64), then parse the
base-16 subject sequence; error models a thrown exception. -/
def stoulModel (s : List Char) : Except Unit Nat :=
  match s.dropWhile isSpaceByte with
  | '-' :: t => (hexTail t).map (fun v => (2 ^ 64 - v % 2 ^ 64) % 2 ^ 64)
  | '+' :: t => hexTail t
  | t => hexTail t

/-- strtoull base-10 digits: at least one decimal digit, value capped by
ULLONG_MAX; error models a thrown exception. -/
def decPlain (t : List Char) : Except Unit Nat :=
  match t.takeWhile isDigitB with
  | [] => .error ()
  | ds =>
    if (ds.foldl (fun a c => a * 10 + (c.toNat - 48)) 0) < 2 ^ 64 then
      .ok (ds.foldl (fun a c => a * 10 + (c.toNat - 48)) 0)
    else .error ()

/-- Model of std::stoull(s) (base 10, 64-bit): skip whitespace, optional
sign ('-' wraps modulo 2^64), then decimal digits. -/
def stoullModel (s : List Char) : Except Unit Nat :=
  match s.dropWhile isSpaceByte with
  | '-' :: t => (decPlain t).map (fun v => (2 ^ 64 - v % 2 ^ 64) % 2 ^ 64)
  | '+' :: t => decPlain t
  | t => decPlain t

/-- Maximum allowed size for an incoming HTTP payload (Common.hpp). -/
def MAX_PAYLOAD_SIZE : Nat := 10485760

/-- RequestInfo from Common.hpp: parsed data of one incoming request. -/
structure RequestInfo where
  path : List Char := []
  query : List Char := []
  params : List (List Char × List Char) := []
  method : List Char := []
  body : List Char := []
  keep_alive : Bool := true
deriving DecidableEq

/-- Response from Common.hpp, with the C++ field defaults. -/
structure Response where
  status_code : Int := 200
  status_text : List Char := "OK".data
  content_type : List Char := "text/html".data
  body : List Char := []
  headers : List (List Char × List Char) := []
  keep_alive : Bool := true
deriving DecidableEq

/-- Model of Response::to_string (Common.cpp): the ostringstream is the
accumulating buffer, each operator<< appends to it. -/
def Response.to_string (r : Response) : List Char :=
  let oss : List Char := []
  let oss := oss ++ "HTTP/1.1 ".data ++ intRepr r.status_code ++ " ".data ++
    r.status_text ++ "\r\n".data
  let oss := oss ++ "Content-Type: ".data ++ r.content_type ++ "\r\n".data
  let oss := oss ++ "Content-Length: ".data ++ natDecimal r.body.length ++
    "\r\n".data
  let oss := oss ++ "Connection: ".data ++
    (if r.keep_alive then "keep-alive".data else "close".data) ++ "\r\n".data
  let oss := r.headers.foldl
    (fun acc kv => acc ++ kv.1 ++ ": ".data ++ kv.2 ++ "\r\n".data) oss
  oss ++ "\r\n".data ++ r.body

/-- Model of parse_url (Parsers.cpp): split path from query at the first
'?', map "/" to "/index.html", strip one leading '/', then fill the
parameter map from the '&'-separated "key=value" query segments with no
decoding; a segment without '=' is skipped; duplicate keys overwrite. -/
def parse_url (url : List Char) : RequestInfo :=
  let pq : List Char × List Char :=
    match findSub url ['?'] with
    | none => (url, [])
    | some pos => (url.take pos, url.drop (pos + 1))
  let path1 := if pq.1 = "/".data then "/index.html".data else pq.1
  let path2 :=
    match path1 with
    | '/' :: rest => rest
    | p => p
  let params := (getlineSegs pq.2).foldl
    (fun ps seg =>
      match List.findIdx? (fun c => c == '=') seg with
      | none => ps
      | some e => mapInsert ps (seg.take e) (seg.drop (e + 1))) []
  { path := path2, query := pq.2, params := params }

/-- Model of url_decode (Parsers.cpp): '+' becomes a space; '%' with at
least two following characters feeds them to std::stoul(..., 16), whose
failure is a thrown exception (Except.error); '%' with fewer than two
characters remaining is copied through literally; the decoded byte is the
stoul value cast to a byte. -/
def url_decode : List Char → Except Unit (List Char)
  | [] => .ok []
  | c :: d1 :: d2 :: rest2 =>
    if c == '+' then (url_decode (d1 :: d2 :: rest2)).map (fun t => ' ' :: t)
    else if c == '%' then
      match stoulModel [d1, d2] with
      | .error e => .error e
      | .ok v => (url_decode rest2).map (fun t => Char.ofNat (v % 256) :: t)
    else (url_decode (d1 :: d2 :: rest2)).map (fun t => c :: t)
  | c :: rest =>
    if c == '+' then (url_decode rest).map (fun t => ' ' :: t)
    else (url_decode rest).map (fun t => c :: t)

/-- The per-segment loop of parse_form_body: each "key=value" segment has
key and value url-decoded and inserted (overwriting) into the parameter
map; a thrown decode exception propagates immediately. -/
def parse_form_segs : List (List Char) → RequestInfo → Except Unit RequestInfo
  | [], info => .ok info
  | seg :: rest, info =>
    match List.findIdx? (fun c => c == '=') seg with
    | none => parse_form_segs rest info
    | some e =>
      match url_decode (seg.take e), url_decode (seg.drop (e + 1)) with
      | .ok key, .ok value =>
        parse_form_segs rest
          { info with params := mapInsert info.params key value }
      | .error e1, _ => .error e1
      | .ok _, .error e2 => .error e2

/-- Model of parse_form_body (Parsers.cpp). -/
def parse_form_body (form_body : List Char) (info : RequestInfo) :
    Except Unit RequestInfo :=
  parse_form_segs (getlineSegs form_body) info

/-- The three scanner states of parse_json_body. -/
inductive JsonState where
  | SEARCHING
  | KEY
  | VALUE
deriving DecidableEq

/-- The inner while-loop of parse_json_body's VALUE state for quoted string
values: accumulate characters into the value, translating the two-byte
escape backslash-quote into a quote; the result pairs the accumulated value
with the index of the closing quote within the input (the input length when
no closing quote occurs before the end of the body). -/
def jsonValueStr : List Char → List Char → List Char × Nat
  | [], cv => (cv, 0)
  | '\\' :: '"' :: rest2, cv =>
    ((jsonValueStr rest2 (cv ++ ['"'])).1, (jsonValueStr rest2 (cv ++ ['"'])).2 + 2)
  | '"' :: _, cv => (cv, 0)
  | c :: rest, cv =>
    ((jsonValueStr rest (cv ++ [c])).1, (jsonValueStr rest (cv ++ [c])).2 + 1)

/-- Model of the main state machine of parse_json_body (Parsers.cpp):
SEARCHING looks for the opening quote of a key, KEY accumulates key bytes
until the closing quote, VALUE skips colons and whitespace, ends a pair at
',' or '}' (inserting only when the key is non-empty, in which case both
accumulators are cleared), reads a quoted string value via jsonValueStr
(resuming just past the closing quote), and otherwise accumulates literal
value bytes. -/
def jsonScan : List Char → JsonState → List Char → List Char →
    List (List Char × List Char) → List (List Char × List Char)
  | [], _, _, _, ps => ps
  | c :: rest, .SEARCHING, ck, cv, ps =>
    jsonScan rest (if c == '"' then .KEY else .SEARCHING) ck cv ps
  | c :: rest, .KEY, ck, cv, ps =>
    if c == '"' then jsonScan rest .VALUE ck cv ps
    else jsonScan rest .KEY (ck ++ [c]) cv ps
  | c :: rest, .VALUE, ck, cv, ps =>
    if c == ':' || isSpaceByte c then jsonScan rest .VALUE ck cv ps
    else if c == ',' || c == '}' then
      if ck.isEmpty then jsonScan rest .SEARCHING ck cv ps
      else jsonScan rest .SEARCHING [] [] (mapInsert ps ck cv)
    else if c == '"' then
      jsonScan (rest.drop ((jsonValueStr rest cv).2 + 1)) .VALUE ck
        (jsonValueStr rest cv).1 ps
    else jsonScan rest .VALUE ck (cv ++ [c]) ps
termination_by s _ _ _ _ => s.length
decreasing_by
  all_goals simp_wf
  all_goals omega

/-- Model of parse_json_body (Parsers.cpp): run the scanner over the body,
augmenting the request's parameter map. -/
def parse_json_body (body : List Char) (info : RequestInfo) : RequestInfo :=
  { info with params := jsonScan body .SEARCHING [] [] info.params }

/-- The fixed extension-to-MIME table of get_mime_type (Parsers.cpp). -/
def mime_types : List (List Char × List Char) :=
  [(".html".data, "text/html".data),
   (".css".data, "text/css".data),
   (".js".data, "application/javascript".data),
   (".jpg".data, "image/jpeg".data),
   (".jpeg".data, "image/jpeg".data),
   (".png".data, "image/png".data)]

/-- Index of the last occurrence of a character (std::string::find_last_of
with a single character). -/
def findLastIdx (c : Char) (s : List Char) : Option Nat :=
  match List.findIdx? (fun x => x == c) s.reverse with
  | none => none
  | some k => some (s.length - 1 - k)

/-- Model of get_mime_type (Parsers.cpp): the extension starting at the
last '.' selects the MIME type, defaulting to text/plain. -/
def get_mime_type (path : List Char) : List Char :=
  match findLastIdx '.' path with
  | none => "text/plain".data
  | some dot_pos =>
    match mapFind? mime_types (path.drop dot_pos) with
    | some m => m
    | none => "text/plain".data

/-- Model of extract_header_value (Parsers.cpp): within the first max_pos
bytes, search case-insensitively for the target; if absent return the
empty string, else skip the target, then any spaces and colons, and return
the bytes up to the line's carriage return (or the end of the range). -/
def extract_header_value (full_data : List Char) (max_pos : Nat)
    (target : List Char) : List Char :=
  let hdr := full_data.take max_pos
  match searchCI hdr target with
  | none => []
  | some i =>
    (((hdr.drop (i + target.length)).dropWhile
        (fun c => c == ' ' || c == ':')).takeWhile (fun c => c != '\r'))

/-- ServerConstants::HTTP_DELIM. -/
def HTTP_DELIM : List Char := "\r\n\r\n".data

/-- ServerConstants::PUBLIC_DIR. -/
def PUBLIC_DIR : List Char := "public/".data

/-- ServerConstants::DEFAULT_INDEX. -/
def DEFAULT_INDEX : List Char := "index.html".data

/-- ServerConstants::HDR_CONNECTION. -/
def HDR_CONNECTION : List Char := "Connection:".data

/-- ServerConstants::HDR_CONTENT_LEN. -/
def HDR_CONTENT_LEN : List Char := "Content-Length:".data

/-- ServerConstants::HDR_CONTENT_TYPE. -/
def HDR_CONTENT_TYPE : List Char := "Content-Type:".data

/-- ServerConstants::MIME_URLENCODED. -/
def MIME_URLENCODED : List Char := "application/x-www-form-urlencoded".data

/-- ServerConstants::MIME_JSON. -/
def MIME_JSON : List Char := "application/json".data

/-- ServerConstants::CHUNK_BUFFER_SIZE. -/
def CHUNK_BUFFER_SIZE : Nat := 4096

/-- Model of HttpServer::handle_static_file (Server.cpp).  The filesystem
is an explicit oracle from file path to file contents (none when the file
cannot be opened).  A requested path containing the literal substring ".."
is rejected with 403 before any filesystem access; otherwise the path is
resolved under PUBLIC_DIR, served with 200 and the extension's MIME type
when it opens, and answered with 404 otherwise. -/
def handle_static_file (fs : List Char → Option (List Char))
    (requested_path : List Char) : Response :=
  if containsSub requested_path "..".data then
    { status_code := 403, status_text := "Forbidden".data,
      body := "<h1>403 Forbidden: Directory traversal detected</h1>".data }
  else
    match fs (PUBLIC_DIR ++ requested_path) with
    | some content =>
      { body := content, content_type := get_mime_type (PUBLIC_DIR ++ requested_path) }
    | none =>
      { status_code := 404, status_text := "Not Found".data,
        body := "<h1>404: File Not Found</h1>".data }

/-- The request-line split of handle_client (Server.cpp lines 172-175):
method and raw URL are carved out of the buffer by the first two spaces,
with the std::string::npos index arithmetic reproduced for the degenerate
cases where a space is missing. -/
def requestLineOf (d : List Char) : List Char × List Char :=
  match List.findIdx? (fun c => c == ' ') d with
  | none => (d, d)
  | some fs1 =>
    match List.findIdx? (fun c => c == ' ') (d.drop (fs1 + 1)) with
    | none => (d.take fs1, d.drop (fs1 + 1))
    | some k => (d.take fs1, (d.drop (fs1 + 1)).take k)

/-- The parsed request produced by handle_client before body handling
(Server.cpp lines 172-185): parse_url on the raw target, the method
recorded, and keep-alive forced off when the Connection header value
contains "close" or "Close" as a literal substring. -/
def requestOf (d : List Char) (body_pos : Nat) : RequestInfo :=
  let line := requestLineOf d
  let req := { parse_url line.2 with method := line.1 }
  let conn := extract_header_value d body_pos HDR_CONNECTION
  if containsSub conn "close".data || containsSub conn "Close".data then
    { req with keep_alive := false }
  else req

/-- The body-completion loop of handle_client (Server.cpp lines 207-220).
The stream lists the byte chunks successive read() calls deliver; each
iteration asks for at most CHUNK_BUFFER_SIZE bytes (capped by the bytes
still missing), an empty delivery models read() returning zero or less and
stops the loop.  Returns the grown buffer and the number of read() calls
issued. -/
def readBody : List Char → List (List Char) → Nat → Nat → List Char × Nat
  | d, stream, current, content_length =>
    if current < content_length then
      match stream with
      | [] => (d, 1)
      | chunk :: restStream =>
        let delivered := chunk.take (min CHUNK_BUFFER_SIZE (content_length - current))
        if delivered.isEmpty then (d, 1)
        else
          ((readBody (d ++ delivered) restStream (current + delivered.length)
              content_length).1,
           (readBody (d ++ delivered) restStream (current + delivered.length)
              content_length).2 + 1)
    else (d, 0)

/-- The POST body-decoder selection of handle_client (Server.cpp lines
229-240): for POST requests the Content-Type header picks the form decoder
(whose thrown exceptions propagate) or the JSON scanner; anything else
leaves the request unchanged. -/
def postParse (d : List Char) (body_pos : Nat) (req : RequestInfo) :
    Except Unit RequestInfo :=
  if req.method = "POST".data then
    if containsSub (extract_header_value d body_pos HDR_CONTENT_TYPE)
        MIME_URLENCODED then
      parse_form_body req.body req
    else if containsSub (extract_header_value d body_pos HDR_CONTENT_TYPE)
        MIME_JSON then
      .ok (parse_json_body req.body req)
    else .ok req
  else .ok req

/-- The path normalization of handle_client (Server.cpp lines 242-247):
empty, "/", "public" and "public/" map to the default index document, and
a leading "public/" is stripped when present. -/
def normalize_path (p : List Char) : List Char :=
  let p1 :=
    if p.isEmpty || p = "/".data || p = "public".data || p = PUBLIC_DIR then
      DEFAULT_INDEX
    else p
  if PUBLIC_DIR.length ≤ p1.length ∧ p1.take PUBLIC_DIR.length = PUBLIC_DIR then
    p1.drop PUBLIC_DIR.length
  else p1

/-- The response finalization of handle_client (Server.cpp lines 260-263):
the request's keep-alive flag overwrites the handler's, then any status of
400 or above forces it off. -/
def finalize (req_keep : Bool) (res : Response) : Response :=
  let r := { res with keep_alive := req_keep }
  if 400 ≤ r.status_code then { r with keep_alive := false } else r

/-- The 413 response built by handle_client when the declared body exceeds
MAX_PAYLOAD_SIZE (Server.cpp lines 199-202), before finalization. -/
def payloadTooLarge : Response :=
  { status_code := 413, status_text := "Payload Too Large".data,
    content_type := "text/plain".data, body := "Payload exceeds limits.".data }

/-- The outcome of one iteration of the keep-alive loop of handle_client:
a malformed buffer (no header/body delimiter) closes the connection with
no response, an uncaught parser exception aborts the process, and
otherwise a finalized response is sent, paired with the request it answers
and the number of body-completion read() calls issued. -/
inductive SessionOutcome where
  | malformed
  | crash
  | reply (res : Response) (req : RequestInfo) (body_reads : Nat)
deriving DecidableEq

/-- The dispatch and finalization tail of handle_client (Server.cpp lines
226-263): POST body decoding, path normalization, exact-match route lookup
with static-file fallback, then response finalization. -/
def routeAndRespond (routes : List Char → Option (RequestInfo → Response))
    (fs : List Char → Option (List Char)) (d : List Char) (body_pos : Nat)
    (req : RequestInfo) (reads : Nat) : SessionOutcome :=
  match postParse d body_pos req with
  | .error _ => .crash
  | .ok req1 =>
    let req2 := { req1 with path := normalize_path req1.path }
    let res :=
      match routes req2.path with
      | some h => h req2
      | none => handle_static_file fs req2.path
    .reply (finalize req2.keep_alive res) req2 reads

/-- The Content-Length-present branch of handle_client that reads the rest
of the body and proceeds to dispatch (Server.cpp lines 206-222). -/
def bodyAndRoute (routes : List Char → Option (RequestInfo → Response))
    (fs : List Char → Option (List Char)) (d : List Char)
    (stream : List (List Char)) (body_pos content_length : Nat) :
    SessionOutcome :=
  let grown := readBody d stream (d.length - (body_pos + 4)) content_length
  routeAndRespond routes fs grown.1 body_pos
    { requestOf d body_pos with
      body := (grown.1.drop (body_pos + 4)).take content_length }
    grown.2

/-- One iteration of the keep-alive loop of HttpServer::handle_client
(Server.cpp lines 156-285), from a successfully read buffer d: find the
header/body delimiter (closing silently when absent), parse the request
line, URL and Connection header, then either short-circuit with 413 when
the declared Content-Length exceeds MAX_PAYLOAD_SIZE (issuing no body
read), or complete the body and dispatch.  The route table and the static
filesystem are explicit oracles; stream lists the chunks later read()
calls would deliver. -/
def process_request (routes : List Char → Option (RequestInfo → Response))
    (fs : List Char → Option (List Char)) (d : List Char)
    (stream : List (List Char)) : SessionOutcome :=
  match findSub d HTTP_DELIM with
  | none => .malformed
  | some body_pos =>
    if (extract_header_value d body_pos HDR_CONTENT_LEN).isEmpty then
      routeAndRespond routes fs d body_pos (requestOf d body_pos) 0
    else
      match stoullModel (extract_header_value d body_pos HDR_CONTENT_LEN) with
      | .error _ => .crash
      | .ok content_length =>
        if MAX_PAYLOAD_SIZE < content_length then
          .reply (finalize (requestOf d body_pos).keep_alive payloadTooLarge)
            (requestOf d body_pos) 0
        else
          bodyAndRoute routes fs d stream body_pos content_length

/-- The routing key a raw request target is dispatched under: parse_url
followed by the pre-dispatch path normalization. -/
def routing_key (rawUrl : List Char) : List Char :=
  normalize_path (parse_url rawUrl).path

/-- Flattened form of the additional-header block emitted by
Response::to_string: one "key: value" CRLF-terminated line per entry, in
iteration order. -/
def headersFlat : List (List Char × List Char) → List Char
  | [] => []
  | kv :: rest => kv.1 ++ ": ".data ++ kv.2 ++ "\r\n".data ++ headersFlat rest

theorem headersFoldl_eq (hs : List (List Char × List Char)) (init : List Char) :
    hs.foldl (fun acc kv => acc ++ kv.1 ++ ": ".data ++ kv.2 ++ "\r\n".data)
      init = init ++ headersFlat hs := by
  induction hs generalizing init with
  | nil => simp [headersFlat]
  | cons kv rest ih =>
    rw [List.foldl_cons, ih]
    simp [headersFlat, List.append_assoc]

/-- Shared flattening of Response::to_string used by several claims. -/
theorem to_string_flat (r : Response) :
    r.to_string =
      "HTTP/1.1 ".data ++ intRepr r.status_code ++ " ".data ++ r.status_text
        ++ "\r\n".data
        ++ "Content-Type: ".data ++ r.content_type ++ "\r\n".data
        ++ "Content-Length: ".data ++ natDecimal r.body.length ++ "\r\n".data
        ++ "Connection: ".data
        ++ (if r.keep_alive then "keep-alive".data else "close".data)
        ++ "\r\n".data
        ++ headersFlat r.headers ++ "\r\n".data ++ r.body := by
  simp only [Response.to_string]
  rw [headersFoldl_eq]
  simp [List.append_assoc]

/-- C5: for every Response value, Response::to_string emits the status
line, then the standard headers in the fixed order Content-Type,
Content-Length, Connection, where the Content-Length value is the decimal
representation of the exact byte length of the body field and the
Connection value is keep-alive or close according to the keep-alive flag,
then the additional headers, a blank line, and the body verbatim. -/
theorem response_serialization_exact (r : Response) :
    r.to_string =
      "HTTP/1.1 ".data ++ intRepr r.status_code ++ " ".data ++ r.status_text
        ++ "\r\n".data
        ++ "Content-Type: ".data ++ r.content_type ++ "\r\n".data
        ++ "Content-Length: ".data ++ natDecimal r.body.length ++ "\r\n".data
        ++ "Connection: ".data
        ++ (if r.keep_alive then "keep-alive".data else "close".data)
        ++ "\r\n".data
        ++ headersFlat r.headers ++ "\r\n".data ++ r.body :=
  to_string_flat r

/-- C6: the finalized keep-alive flag is the request's flag, the handler's
own flag being discarded, except that a status of 400 or above forces it
off; consequently the serialized Connection header value of a finalized
response with status at least 400 is "close". -/
theorem finalize_override (res : Response) (k : Bool) :
    (finalize k res).keep_alive = (if 400 ≤ res.status_code then false else k)
      ∧
    (finalize k res).to_string =
      "HTTP/1.1 ".data ++ intRepr res.status_code ++ " ".data
        ++ res.status_text ++ "\r\n".data
        ++ "Content-Type: ".data ++ res.content_type ++ "\r\n".data
        ++ "Content-Length: ".data ++ natDecimal res.body.length
        ++ "\r\n".data
        ++ "Connection: ".data
        ++ (if 400 ≤ res.status_code then "close".data
            else if k then "keep-alive".data else "close".data)
        ++ "\r\n".data
        ++ headersFlat res.headers ++ "\r\n".data ++ res.body := by
  have hf : (finalize k res).status_code = res.status_code ∧
      (finalize k res).status_text = res.status_text ∧
      (finalize k res).content_type = res.content_type ∧
      (finalize k res).body = res.body ∧
      (finalize k res).headers = res.headers ∧
      (finalize k res).keep_alive =
        (if 400 ≤ res.status_code then false else k) := by
    by_cases h : 400 ≤ res.status_code <;> simp [finalize, h]
  constructor
  · exact hf.2.2.2.2.2
  · rw [to_string_flat, hf.1, hf.2.1, hf.2.2.1, hf.2.2.2.1, hf.2.2.2.2.1,
      hf.2.2.2.2.2]
    by_cases h : 400 ≤ res.status_code <;> simp [h]

/-- C1: a requested path containing the literal substring ".." anywhere is
answered 403 by the static resolver, and the result does not consult the
filesystem oracle at all (so no file is opened), whether or not the
traversal would escape the asset root. -/
theorem static_traversal_rejected (fs : List Char → Option (List Char))
    (p : List Char) (h : containsSub p "..".data = true) :
    (handle_static_file fs p).status_code = 403 ∧
    ∀ fs2, handle_static_file fs2 p = handle_static_file fs p := by
  constructor
  · simp [handle_static_file, h]
  · intro fs2
    simp [handle_static_file, h]

theorem static_traversal_rejected_witness :
    containsSub "a..b".data "..".data = true ∧
    (handle_static_file (fun _ => some "secret".data) "a..b".data).status_code
      = 403 :=
  ⟨by decide,
   (static_traversal_rejected (fun _ => some "secret".data) "a..b".data
     (by decide)).1⟩

/-- C3 (code bug in url_decode): the claim that url_decode is total fails;
a '%' followed by two characters that do not form a valid hexadecimal
number makes std::stoul throw std::invalid_argument (modelled as
Except.error), and the exception propagates out of parse_form_body, so
untrusted form bodies can abort the worker. -/
theorem url_decode_nonhex_throws :
    url_decode "%zz".data = .error () ∧
    parse_form_body "a=%zz".data {} = .error () :=
  ⟨rfl, rfl⟩

/-- C10: pre-dispatch path normalization maps the empty path, "/", and the
asset-root names "public" and "public/" to the default index document,
strips one leading "public/" from any other path, and therefore the raw
targets "/index.html" and "/public/index.html" produce the identical
routing key "index.html". -/
theorem path_normalization_spec :
    normalize_path [] = DEFAULT_INDEX ∧
    normalize_path "/".data = DEFAULT_INDEX ∧
    normalize_path "public".data = DEFAULT_INDEX ∧
    normalize_path "public/".data = DEFAULT_INDEX ∧
    (∀ rest, rest ≠ [] → normalize_path (PUBLIC_DIR ++ rest) = rest) ∧
    routing_key "/index.html".data = "index.html".data ∧
    routing_key "/public/index.html".data = "index.html".data := by
  refine ⟨by decide, by decide, by decide, by decide, ?_, by decide, by decide⟩
  intro rest hrest
  have h1 : (PUBLIC_DIR ++ rest).isEmpty = false := by
    simp [PUBLIC_DIR]
  have h2 : ¬ (PUBLIC_DIR ++ rest) = "/".data := by
    intro h
    have := congrArg List.length h
    simp [PUBLIC_DIR] at this
  have h3 : ¬ (PUBLIC_DIR ++ rest) = "public".data := by
    intro h
    have := congrArg List.length h
    simp [PUBLIC_DIR] at this
  have h4 : ¬ (PUBLIC_DIR ++ rest) = PUBLIC_DIR := by
    intro h
    have := congrArg List.length h
    simp [PUBLIC_DIR] at this
    exact hrest this
  unfold normalize_path
  simp only [h1, h2, h3, h4]
  simp [List.take_left, List.drop_left]

theorem path_normalization_spec_witness :
    normalize_path (PUBLIC_DIR ++ "style.css".data) = "style.css".data :=
  path_normalization_spec.2.2.2.2.1 "style.css".data (by decide)

theorem finalize_keep_eq (k : Bool) (res : Response) :
    (finalize k res).keep_alive =
      if 400 ≤ res.status_code then false else k := by
  by_cases h : 400 ≤ res.status_code <;> simp [finalize, h]

theorem parse_form_segs_keep (segs : List (List Char)) :
    ∀ info r, parse_form_segs segs info = .ok r →
      r.keep_alive = info.keep_alive := by
  induction segs with
  | nil =>
    intro info r h
    cases h
    rfl
  | cons seg rest ih =>
    intro info r h
    unfold parse_form_segs at h
    split at h
    · exact ih _ _ h
    · split at h
      · exact (ih _ _ h).trans rfl
      · simp at h
      · simp at h

theorem postParse_keep (d : List Char) (bp : Nat) (req r : RequestInfo)
    (h : postParse d bp req = .ok r) : r.keep_alive = req.keep_alive := by
  unfold postParse at h
  split at h
  · split at h
    · unfold parse_form_body at h
      exact parse_form_segs_keep _ _ _ h
    · split at h
      · cases h
        rfl
      · cases h
        rfl
  · cases h
    rfl

theorem routeAndRespond_keep
    (routes : List Char → Option (RequestInfo → Response))
    (fs : List Char → Option (List Char)) (d : List Char) (bp : Nat)
    (req : RequestInfo) (reads : Nat) (res : Response) (rq : RequestInfo)
    (n : Nat) (hk : req.keep_alive = false)
    (h : routeAndRespond routes fs d bp req reads = .reply res rq n) :
    res.keep_alive = false ∧ rq.keep_alive = false := by
  unfold routeAndRespond at h
  split at h
  · simp at h
  · rename_i req1 hpost
    have hkeep : req1.keep_alive = false :=
      (postParse_keep _ _ _ _ hpost).trans hk
    injection h with hA hB hC
    constructor
    · rw [← hA, finalize_keep_eq]
      split
      · rfl
      · simpa using hkeep
    · rw [← hB]
      simpa using hkeep

/-- C4 (amended): the Connection-header check of handle_client is a literal
substring match against the two spellings "close" and "Close", not a
case-insensitive one; whenever the Connection header value contains one of
those two spellings, the parsed request's keep-alive flag is false and any
response produced for the request is finalized with keep-alive off, so the
socket is closed after the exchange even if the handler left its own flag
set. -/
theorem connection_close_exact_spellings (d : List Char) (bp : Nat)
    (h1 : findSub d HTTP_DELIM = some bp)
    (h2 : (containsSub (extract_header_value d bp HDR_CONNECTION) "close".data
        || containsSub (extract_header_value d bp HDR_CONNECTION)
            "Close".data) = true) :
    (requestOf d bp).keep_alive = false ∧
    ∀ routes fs stream res req n,
      process_request routes fs d stream = .reply res req n →
      res.keep_alive = false ∧ req.keep_alive = false := by
  have hreq : (requestOf d bp).keep_alive = false := by
    unfold requestOf
    simp only [h2]
    simp
  refine ⟨hreq, ?_⟩
  intro routes fs stream res req n h
  unfold process_request at h
  rw [h1] at h
  simp only at h
  split at h
  · exact routeAndRespond_keep _ _ _ _ _ _ _ _ _ hreq h
  · split at h
    · simp at h
    · split at h
      · injection h with hA hB hC
        constructor
        · rw [← hA, finalize_keep_eq, hreq]
          split <;> rfl
        · rw [← hB]
          exact hreq
      · unfold bodyAndRoute at h
        refine routeAndRespond_keep _ _ _ _ _ _ _ _ _ ?_ h
        simpa using hreq

theorem connection_close_exact_spellings_witness :
    (requestOf "GET / HTTP/1.1\r\nConnection: close\r\n\r\n".data 33).keep_alive
      = false :=
  (connection_close_exact_spellings
    "GET / HTTP/1.1\r\nConnection: close\r\n\r\n".data 33 (by decide)
    (by decide)).1

/-- C4 (counterexample): the claim's case-insensitive reading fails.  For
the request "GET / HTTP/1.1" with header "Connection: CLOSE" the header
value contains "close" case-insensitively (witnessed by searchCI), yet the
parsed request keeps keep-alive true, and with a handler registered for
"index.html" the exchange completes with a response whose keep-alive flag
is still true, so the socket is not closed after one exchange. -/
theorem connection_close_case_insensitive_cx :
    (searchCI
      (extract_header_value
        "GET / HTTP/1.1\r\nConnection: CLOSE\r\n\r\n".data 33 HDR_CONNECTION)
      "close".data).isSome = true ∧
    (requestOf "GET / HTTP/1.1\r\nConnection: CLOSE\r\n\r\n".data 33).keep_alive
      = true ∧
    process_request
      (fun p => if p = "index.html".data then some (fun _ => {}) else none)
      (fun _ => none)
      "GET / HTTP/1.1\r\nConnection: CLOSE\r\n\r\n".data [] =
      .reply {}
        (requestOf "GET / HTTP/1.1\r\nConnection: CLOSE\r\n\r\n".data 33) 0 ∧
    ({} : Response).keep_alive = true := by
  refine ⟨by decide, by decide, ?_, rfl⟩
  decide

/-- C2 (counterexample): the claim fails for declared Content-Length
values not representable in unsigned long long.  With the header
"Content-Length: 18446744073709551616" (2^64, strictly greater than
MAX_PAYLOAD_SIZE, so inside the claim's scope), std::stoull throws
std::out_of_range before the 413 branch is reached; the exception is
uncaught, so the session crashes and no response with status 413 (or any
response at all) is produced. -/
theorem oversized_payload_overflow_cx :
    extract_header_value
      "POST /u HTTP/1.1\r\nContent-Length: 18446744073709551616\r\n\r\n".data
      54 HDR_CONTENT_LEN = "18446744073709551616".data ∧
    MAX_PAYLOAD_SIZE < 18446744073709551616 ∧
    process_request (fun _ => none) (fun _ => none)
      "POST /u HTTP/1.1\r\nContent-Length: 18446744073709551616\r\n\r\n".data
      [] = .crash := by
  refine ⟨by decide, by decide, ?_⟩
  rfl

/-- C2 (amended): a request whose Content-Length header value is parsed by
std::stoull to a value strictly greater than MAX_PAYLOAD_SIZE (10,485,760)
— that is, any declared value above the limit that is representable in
unsigned long long — is answered with status exactly 413, the session
issues zero body read() calls, and the finalized response has its
keep-alive flag forced off, so the connection is closed after the
response.  (Declared values of 2^64 or more instead make std::stoull throw
uncaught std::out_of_range, crashing the session with no response; see the
counterexample.) -/
theorem oversized_payload_413
    (routes : List Char → Option (RequestInfo → Response))
    (fs : List Char → Option (List Char)) (d : List Char)
    (stream : List (List Char)) (bp : Nat) (L : Nat)
    (h1 : findSub d HTTP_DELIM = some bp)
    (h2 : (extract_header_value d bp HDR_CONTENT_LEN).isEmpty = false)
    (h3 : stoullModel (extract_header_value d bp HDR_CONTENT_LEN) = .ok L)
    (h4 : MAX_PAYLOAD_SIZE < L) :
    process_request routes fs d stream =
      .reply { payloadTooLarge with keep_alive := false } (requestOf d bp) 0
      ∧
    ({ payloadTooLarge with keep_alive := false } : Response).status_code
      = 413 ∧
    ({ payloadTooLarge with keep_alive := false } : Response).keep_alive
      = false := by
  refine ⟨?_, rfl, rfl⟩
  unfold process_request
  rw [h1]
  simp only [h2, h3, Bool.false_eq_true, if_false]
  rw [if_pos h4]
  have hfin : finalize (requestOf d bp).keep_alive payloadTooLarge =
      { payloadTooLarge with keep_alive := false } := by
    unfold finalize payloadTooLarge
    simp
  rw [hfin]

theorem oversized_payload_413_witness :
    process_request (fun _ => none) (fun _ => none)
      "POST /u HTTP/1.1\r\nContent-Length: 10485761\r\n\r\n".data [] =
      .reply { payloadTooLarge with keep_alive := false }
        (requestOf "POST /u HTTP/1.1\r\nContent-Length: 10485761\r\n\r\n".data
          42) 0 :=
  (oversized_payload_413 (fun _ => none) (fun _ => none)
    "POST /u HTTP/1.1\r\nContent-Length: 10485761\r\n\r\n".data [] 42 10485761
    (by decide) (by decide) rfl (by decide)).1

theorem hex_range (c : Char) (h : isHexDigitB c = true) :
    (48 ≤ c.toNat ∧ c.toNat ≤ 57) ∨ (97 ≤ c.toNat ∧ c.toNat ≤ 102) ∨
    (65 ≤ c.toNat ∧ c.toNat ≤ 70) := by
  simp only [isHexDigitB, Bool.or_eq_true, Bool.and_eq_true,
    decide_eq_true_eq] at h
  rcases h with (⟨h1, h2⟩ | ⟨h1, h2⟩) | ⟨h1, h2⟩
  · exact Or.inl ⟨h1, h2⟩
  · exact Or.inr (Or.inl ⟨h1, h2⟩)
  · exact Or.inr (Or.inr ⟨h1, h2⟩)

theorem hex_not_space (c : Char) (h : isHexDigitB c = true) :
    isSpaceByte c = false := by
  have hr := hex_range c h
  cases hsp : isSpaceByte c
  · rfl
  · exfalso
    simp only [isSpaceByte, Bool.or_eq_true, decide_eq_true_eq] at hsp
    rcases hr with ⟨a, b⟩ | ⟨a, b⟩ | ⟨a, b⟩ <;>
      rcases hsp with ((((h0 | h0) | h0) | h0) | h0) | h0 <;> omega

theorem hex_ne_chars (c : Char) (h : isHexDigitB c = true) :
    c ≠ '-' ∧ c ≠ '+' ∧ c ≠ 'x' ∧ c ≠ 'X' := by
  have hr := hex_range c h
  refine ⟨?_, ?_, ?_, ?_⟩ <;> rintro rfl <;>
    rcases hr with ⟨a, b⟩ | ⟨a, b⟩ | ⟨a, b⟩ <;> revert a b <;> decide

theorem hexVal_lt_16 (c : Char) (h : isHexDigitB c = true) :
    hexVal c < 16 := by
  have hr := hex_range c h
  unfold hexVal
  split
  · rename_i hc
    omega
  · split
    · rename_i hc
      omega
    · split
      · rename_i hc
        omega
      · omega

theorem stoul_hex_digits (d1 d2 : Char) (h1 : isHexDigitB d1 = true)
    (h2 : isHexDigitB d2 = true) :
    stoulModel [d1, d2] = .ok (16 * hexVal d1 + hexVal d2) := by
  have hs1 := hex_not_space d1 h1
  have hn1 := hex_ne_chars d1 h1
  have hn2 := hex_ne_chars d2 h2
  have hplain : hexPlain [d1, d2] = .ok (16 * hexVal d1 + hexVal d2) := by
    unfold hexPlain
    have htw : [d1, d2].takeWhile isHexDigitB = [d1, d2] := by
      simp [List.takeWhile_cons, h1, h2]
    rw [htw]
    have hv1 := hexVal_lt_16 d1 h1
    have hv2 := hexVal_lt_16 d2 h2
    have hfold : [d1, d2].foldl (fun a c => a * 16 + hexVal c) 0 =
        16 * hexVal d1 + hexVal d2 := by
      simp [List.foldl]
      ring
    simp only [hfold]
    rw [if_pos (by omega)]
  have htail : hexTail [d1, d2] = .ok (16 * hexVal d1 + hexVal d2) := by
    unfold hexTail
    split
    · rename_i x rest heq
      injection heq with ha hb
      injection hb with hb1 hb2
      have hcond : (x == 'x' || x == 'X') = false := by
        rw [← hb1]
        simp [hn2.2.2.1, hn2.2.2.2]
      simp only [hcond, Bool.false_eq_true, if_false]
      rw [← ha, ← hb1, ← hb2]
      exact hplain
    · exact hplain
  unfold stoulModel
  have hdrop : List.dropWhile isSpaceByte [d1, d2] = [d1, d2] := by
    simp [List.dropWhile_cons, hs1]
  rw [hdrop]
  split
  all_goals first
    | exact htail
    | (rename_i t heq
       exfalso
       injection heq with ha hb
       first
         | exact hn1.1 ha
         | exact hn1.2.1 ha)

/-- C7: percent/plus decoding maps '+' to a space and "%XY" with two hex
digits to the byte 16*X+Y; a '%' with fewer than two characters remaining
is copied through literally (so "a%4" and a final "%" pass unchanged); and
parse_form_body decodes both keys and values, so the form body
"name=Ann+Lee&age=5" yields exactly the parameters name = "Ann Lee" and
age = "5". -/
theorem url_decoding_spec :
    (∀ s, url_decode ('+' :: s) = (url_decode s).map (fun t => ' ' :: t)) ∧
    (∀ d1 d2 s, isHexDigitB d1 = true → isHexDigitB d2 = true →
      url_decode ('%' :: d1 :: d2 :: s) =
        (url_decode s).map
          (fun t => Char.ofNat (16 * hexVal d1 + hexVal d2) :: t)) ∧
    (∀ s, s.length < 2 →
      url_decode ('%' :: s) = (url_decode s).map (fun t => '%' :: t)) ∧
    parse_form_body "name=Ann+Lee&age=5".data {} =
      .ok { params := [("name".data, "Ann Lee".data),
                       ("age".data, "5".data)] } := by
  refine ⟨?_, ?_, ?_, rfl⟩
  · intro s
    match s with
    | [] => rfl
    | [a] => rfl
    | a :: b :: t => rfl
  · intro d1 d2 s hh1 hh2
    have hv1 := hexVal_lt_16 d1 hh1
    have hv2 := hexVal_lt_16 d2 hh2
    have hmod : (16 * hexVal d1 + hexVal d2) % 256 =
        16 * hexVal d1 + hexVal d2 := Nat.mod_eq_of_lt (by omega)
    simp [url_decode, stoul_hex_digits d1 d2 hh1 hh2, hmod]
  · intro s hs
    match s, hs with
    | [], _ => rfl
    | [a], _ => rfl

theorem url_decoding_spec_witness :
    url_decode ('%' :: '4' :: '1' :: []) =
      (url_decode []).map
        (fun t => Char.ofNat (16 * hexVal '4' + hexVal '1') :: t) ∧
    url_decode ('%' :: ['4']) = (url_decode ['4']).map (fun t => '%' :: t) :=
  ⟨url_decoding_spec.2.1 '4' '1' [] (by decide) (by decide),
   url_decoding_spec.2.2.1 ['4'] (by decide)⟩

theorem splitOnChar_ne_nil (sep : Char) (l : List Char) :
    splitOnChar sep l ≠ [] := by
  cases l with
  | nil => simp [splitOnChar]
  | cons x xs =>
    unfold splitOnChar
    split
    · simp
    · split <;> simp

theorem splitOnChar_no_sep (sep : Char) (a : List Char)
    (h : ∀ c ∈ a, ¬ c = sep) : splitOnChar sep a = [a] := by
  induction a with
  | nil => rfl
  | cons x xs ih =>
    have hx : ¬ x = sep := h x (by simp)
    have hxs := ih (fun c hc => h c (by simp [hc]))
    unfold splitOnChar
    rw [hxs]
    simp [hx]

theorem splitOnChar_append (sep : Char) (a b : List Char)
    (h : ∀ c ∈ a, ¬ c = sep) :
    splitOnChar sep (a ++ sep :: b) = a :: splitOnChar sep b := by
  induction a with
  | nil =>
    show splitOnChar sep (sep :: b) = [] :: splitOnChar sep b
    conv_lhs => rw [splitOnChar.eq_def]
    cases hsp : splitOnChar sep b with
    | nil => exact absurd hsp (splitOnChar_ne_nil sep b)
    | cons y ys => simp [hsp]
  | cons x xs ih =>
    have hx : ¬ x = sep := h x (by simp)
    have hxs := ih (fun c hc => h c (by simp [hc]))
    show splitOnChar sep (x :: (xs ++ sep :: b)) =
      (x :: xs) :: splitOnChar sep b
    conv_lhs => rw [splitOnChar.eq_def]
    simp only [hxs]
    simp [hx]

theorem findIdx_first_eq (k v : List Char) (h : ∀ c ∈ k, ¬ c = '=') :
    List.findIdx? (fun c => c == '=') (k ++ '=' :: v) = some k.length := by
  induction k with
  | nil => simp [List.findIdx?_cons]
  | cons x xs ih =>
    have hx : ¬ x = '=' := h x (by simp)
    have hxs := ih (fun c hc => h c (by simp [hc]))
    simp [List.findIdx?_cons, hx, hxs]

theorem getLast?_append_cons (A : List Char) (x : Char) (w : List Char) :
    (A ++ x :: w).getLast? = (x :: w).getLast? := by
  induction A with
  | nil => rfl
  | cons a as ih =>
    show (a :: (as ++ x :: w)).getLast? = _
    rw [← ih]
    cases hcons : as ++ x :: w with
    | nil => exact absurd hcons (by simp)
    | cons y ys => simp [List.getLast?_cons_cons, hcons]

theorem getLast?_cons_mem (x : Char) (w : List Char) (c : Char)
    (h : (x :: w).getLast? = some c) : c ∈ x :: w := by
  induction w generalizing x with
  | nil =>
    simp [List.getLast?] at h
    simp [h]
  | cons y ys ih =>
    rw [List.getLast?_cons_cons] at h
    exact List.mem_cons_of_mem x (ih y h)

theorem findSub_cons_ne (c : Char) (rest : List Char) (hc : ¬ c = '?') :
    findSub (c :: rest) ['?'] = (findSub rest ['?']).map (· + 1) := by
  have hb : ('?' == c) = false := by
    simp [beq_iff_eq]
    exact fun h => hc h.symm
  conv_lhs => rw [findSub.eq_def]
  simp [List.isPrefixOf, hb]

theorem findSub_cons_hit (rest : List Char) :
    findSub ('?' :: rest) ['?'] = some 0 := by
  conv_lhs => rw [findSub.eq_def]
  simp [List.isPrefixOf]

/-- C8: parse_url copies query keys and values verbatim (no percent/plus
decoding at this stage: v1 and v2 are arbitrary '&'-free byte strings,
percent and plus signs included) and a key occurring in two "key=value"
segments ends up mapped to the value of the last occurrence. -/
theorem parse_url_query_no_decode_last_wins (k v1 v2 : List Char)
    (hk1 : ∀ c ∈ k, ¬ c = '&') (hk2 : ∀ c ∈ k, ¬ c = '=')
    (hv1 : ∀ c ∈ v1, ¬ c = '&') (hv2 : ∀ c ∈ v2, ¬ c = '&') :
    parse_url ('/' :: 'p' :: '?' ::
        (k ++ ('=' :: (v1 ++ ('&' :: (k ++ ('=' :: v2))))))) =
      { path := ['p'],
        query := k ++ ('=' :: (v1 ++ ('&' :: (k ++ ('=' :: v2))))),
        params := [(k, v2)] } := by
  have hs1all : ∀ c ∈ (k ++ '=' :: v1), ¬ c = '&' := by
    intro c hc
    rcases List.mem_append.mp hc with h | h
    · exact hk1 c h
    · rcases List.mem_cons.mp h with h | h
      · subst h; decide
      · exact hv1 c h
  have hs2all : ∀ c ∈ (k ++ '=' :: v2), ¬ c = '&' := by
    intro c hc
    rcases List.mem_append.mp hc with h | h
    · exact hk1 c h
    · rcases List.mem_cons.mp h with h | h
      · subst h; decide
      · exact hv2 c h
  have hf : findSub ('/' :: 'p' :: '?' ::
      (k ++ ('=' :: (v1 ++ ('&' :: (k ++ ('=' :: v2))))))) ['?'] = some 2 := by
    rw [findSub_cons_ne '/' _ (by decide), findSub_cons_ne 'p' _ (by decide),
      findSub_cons_hit]
    rfl
  have hassoc : k ++ ('=' :: (v1 ++ ('&' :: (k ++ ('=' :: v2))))) =
      (k ++ '=' :: v1) ++ '&' :: (k ++ '=' :: v2) := by
    simp [List.append_assoc]
  have hsplit : splitOnChar '&'
      (k ++ ('=' :: (v1 ++ ('&' :: (k ++ ('=' :: v2)))))) =
      [k ++ '=' :: v1, k ++ '=' :: v2] := by
    rw [hassoc, splitOnChar_append '&' _ _ hs1all,
      splitOnChar_no_sep '&' _ hs2all]
  have hassoc2 : k ++ ('=' :: (v1 ++ ('&' :: (k ++ ('=' :: v2))))) =
      (k ++ '=' :: v1 ++ '&' :: k) ++ '=' :: v2 := by
    simp [List.append_assoc]
  have hlast : ¬ ((k ++ ('=' :: (v1 ++ ('&' :: (k ++ ('=' :: v2)))))).getLast?
      = some '&') := by
    rw [hassoc2, getLast?_append_cons]
    intro hcontra
    rcases List.mem_cons.mp (getLast?_cons_mem '=' v2 '&' hcontra) with h | h
    · exact absurd h (by decide)
    · exact hv2 '&' h rfl
  have hnonnil : (k ++ ('=' :: (v1 ++ ('&' :: (k ++ ('=' :: v2)))))).isEmpty
      = false := by
    cases k <;> rfl
  have hsegs : getlineSegs
      (k ++ ('=' :: (v1 ++ ('&' :: (k ++ ('=' :: v2)))))) =
      [k ++ '=' :: v1, k ++ '=' :: v2] := by
    unfold getlineSegs
    rw [hnonnil]
    rw [if_neg hlast]
    simp only [Bool.false_eq_true, if_false]
    exact hsplit
  have htake1 : (k ++ '=' :: v1).take k.length = k := List.take_left k _
  have htake2 : (k ++ '=' :: v2).take k.length = k := List.take_left k _
  have hdrop1 : (k ++ '=' :: v1).drop (k.length + 1) = v1 := by
    rw [show k ++ '=' :: v1 = (k ++ ['=']) ++ v1 by simp]
    exact List.drop_left' (by simp)
  have hdrop2 : (k ++ '=' :: v2).drop (k.length + 1) = v2 := by
    rw [show k ++ '=' :: v2 = (k ++ ['=']) ++ v2 by simp]
    exact List.drop_left' (by simp)
  have hfind1 := findIdx_first_eq k v1 hk2
  have hfind2 := findIdx_first_eq k v2 hk2
  unfold parse_url
  rw [hf]
  simp only []
  rw [show List.take 2 ('/' :: 'p' :: '?' ::
      (k ++ ('=' :: (v1 ++ ('&' :: (k ++ ('=' :: v2))))))) = ['/', 'p']
      from rfl,
    show List.drop (2 + 1) ('/' :: 'p' :: '?' ::
      (k ++ ('=' :: (v1 ++ ('&' :: (k ++ ('=' :: v2))))))) =
      k ++ ('=' :: (v1 ++ ('&' :: (k ++ ('=' :: v2))))) from rfl]
  rw [if_neg (by decide : ¬ (['/', 'p'] : List Char) = ['/'])]
  simp only [hsegs, List.foldl_cons, List.foldl_nil, hfind1, hfind2,
    htake1, htake2, hdrop1, hdrop2]
  simp [mapInsert]

theorem parse_url_query_no_decode_last_wins_witness :
    parse_url ('/' :: 'p' :: '?' :: ("a".data ++ ('=' ::
        ("%41+x".data ++ ('&' :: ("a".data ++ ('=' :: "2".data))))))) =
      { path := ['p'],
        query := "a".data ++ ('=' ::
          ("%41+x".data ++ ('&' :: ("a".data ++ ('=' :: "2".data))))),
        params := [("a".data, "2".data)] } :=
  parse_url_query_no_decode_last_wins "a".data "%41+x".data "2".data
    (by decide) (by decide) (by decide) (by decide)

theorem dropWhile_append_all (p : Char → Bool) (a b : List Char)
    (h : ∀ c ∈ a, p c = true) :
    List.dropWhile p (a ++ b) = List.dropWhile p b := by
  induction a with
  | nil => rfl
  | cons x xs ih =>
    have hx := h x (by simp)
    rw [List.cons_append, List.dropWhile_cons, hx]
    simp only [if_true]
    exact ih (fun c hc => h c (by simp [hc]))

theorem takeWhile_append_all (p : Char → Bool) (a b : List Char)
    (h : ∀ c ∈ a, p c = true) :
    List.takeWhile p (a ++ b) = a ++ List.takeWhile p b := by
  induction a with
  | nil => rfl
  | cons x xs ih =>
    have hx := h x (by simp)
    rw [List.cons_append, List.takeWhile_cons, hx]
    simp only [if_true]
    rw [ih (fun c hc => h c (by simp [hc]))]
    rfl

/-- C9: extract_header_value returns the empty string when the target does
not occur (case-insensitively) in the byte range preceding the header/body
delimiter, and when the first case-insensitive occurrence is at the end of
a prefix pre, with the target followed by spaces/colons, then the value,
then the line's carriage return, it returns exactly that value. -/
theorem extract_header_value_spec :
    (∀ (d : List Char) (mp : Nat) (t : List Char),
      searchCI (d.take mp) t = none → extract_header_value d mp t = []) ∧
    (∀ (d : List Char) (mp : Nat) (t pre sep value rest : List Char),
      d.take mp = (pre ++ t) ++ (sep ++ (value ++ '\r' :: rest)) →
      searchCI (d.take mp) t = some pre.length →
      (∀ c ∈ sep, (c == ' ' || c == ':') = true) →
      (∀ c ∈ value, (c != '\r') = true) →
      (∀ c, value.head? = some c → (c == ' ' || c == ':') = false) →
      extract_header_value d mp t = value) := by
  constructor
  · intro d mp t h
    unfold extract_header_value
    simp only [h]
  · intro d mp t pre sep value rest h1 h2 h3 h4 h5
    unfold extract_header_value
    simp only [h2]
    have hdropped : (d.take mp).drop (pre.length + t.length) =
        sep ++ (value ++ '\r' :: rest) := by
      rw [h1]
      exact List.drop_left' (by simp)
    rw [hdropped]
    rw [dropWhile_append_all _ sep _ h3]
    cases value with
    | nil =>
      rw [show List.dropWhile (fun c => c == ' ' || c == ':')
          ([] ++ '\r' :: rest) = '\r' :: rest from rfl]
      rfl
    | cons c0 cs =>
      have hc0 := h5 c0 rfl
      rw [show ((c0 :: cs) ++ '\r' :: rest) = c0 :: (cs ++ '\r' :: rest)
        from rfl]
      rw [List.dropWhile_cons, hc0]
      simp only [Bool.false_eq_true, if_false]
      rw [show (c0 :: (cs ++ '\r' :: rest)) = (c0 :: cs) ++ '\r' :: rest
        from rfl]
      rw [takeWhile_append_all _ (c0 :: cs) _ h4]
      rw [show List.takeWhile (fun c => c != '\r') ('\r' :: rest) = []
        from rfl]
      simp

theorem extract_header_value_spec_witness :
    extract_header_value "Foo: bar\r\nxyz".data 10 "Foo:".data = "bar".data ∧
    extract_header_value "Foo: bar\r\nxyz".data 10 "Bar:".data = [] :=
  ⟨extract_header_value_spec.2 "Foo: bar\r\nxyz".data 10 "Foo:".data []
      " ".data "bar".data "\n".data (by decide) (by decide) (by decide)
      (by decide) (by decide),
   extract_header_value_spec.1 "Foo: bar\r\nxyz".data 10 "Bar:".data
      (by decide)⟩
